import Mathlib

/-!
Shallow embedding of the core of a small feed-forward neural-network engine
(dense 2-D tensors, an activation catalogue, dense layers, losses, three
optimizers and a sequential model), together with theorems checking the
stated properties of its specification.

Modelling conventions, fixed once and used throughout:

* C++ `float` values are modelled as exact rationals (`ℚ`).  Calls into
  `<cmath>` (`exp`, `log`, `tanh`, `sqrt`) are modelled by an explicit record
  `CMath` of functions `ℚ → ℚ` that every definition needing them receives as
  an argument; properties that depend on analytic facts about these functions
  (e.g. positivity of `exp`) take them as hypotheses.
* A `std::vector<float>` buffer of known length is modelled as a total
  function `ℕ → ℚ` together with (where the code needs it) its length.
  A loop nest that writes every in-range position of a fresh buffer is
  modelled by the function assigning each position its final value; theorems
  only ever speak about in-range positions, matching the C++ buffers which
  simply do not have out-of-range positions.  Loops with overlapping or
  data-dependent writes (the sparse cross-entropy backward) are modelled
  operation by operation with `Function.update` folds.
* `assert` is a hard abort.  Where a claim is *about* an assert (the
  compile-before-fit check) the guarded function returns an `Option` and the
  assert failure is `none`; elsewhere asserts are dimension preconditions and
  appear as hypotheses of the theorems.  Dereferencing a null
  `const Tensor*` is undefined behaviour and is likewise modelled as `none`.
-/

/-- The `<cmath>` functions used by the engine, as explicit data. -/
structure CMath where
  exp : ℚ → ℚ
  log : ℚ → ℚ
  tanh : ℚ → ℚ
  sqrt : ℚ → ℚ

/-- The double literal `M_PI` from the activations header. -/
def M_PI : ℚ := 3.14159265358979323846

/-- Simple 2-D tensor (matrix): `rows`, `cols`, and the flat row-major
buffer `data` of conceptual length `rows * cols`, modelled as a total
function on flat indices. -/
structure Tensor where
  rows : ℕ
  cols : ℕ
  data : ℕ → ℚ

namespace Tensor

/-- `operator()(r, c)`: row-major access `data[r * cols + c]`. -/
def entry (A : Tensor) (r c : ℕ) : ℚ := A.data (r * A.cols + c)

/-- `Tensor(r, c)`: fresh zero-filled tensor. -/
def mkZero (r c : ℕ) : Tensor := ⟨r, c, fun _ => 0⟩

end Tensor

/-- Matrix multiplication `C = A * B`; requires `A.cols = B.rows` (assert).
`C(i, j)` is the loop-accumulated sum over `k < A.cols` of `A(i,k)*B(k,j)`. -/
def matmul (A B : Tensor) : Tensor :=
  ⟨A.rows, B.cols, fun idx =>
    let i := idx / B.cols
    let j := idx % B.cols
    (List.range A.cols).foldl (fun sum k => sum + A.entry i k * B.entry k j) 0⟩

/-- Add bias vector to each row: `A(i, j) += b[j]`, requires
`b.size = A.cols` (assert); mutates `A` in place. -/
def add_bias (A : Tensor) (b : ℕ → ℚ) : Tensor :=
  ⟨A.rows, A.cols, fun idx => A.data idx + b (idx % A.cols)⟩

/-- Transpose: `T(j, i) = A(i, j)`, dimensions swapped. -/
def transpose (A : Tensor) : Tensor :=
  ⟨A.cols, A.rows, fun idx =>
    let j := idx / A.rows
    let i := idx % A.rows
    A.entry i j⟩

/-- One comparison step of the `argmax` scan: the running state is the pair
`(max_idx, max_val)`; a strictly greater entry replaces it, recording the
flat index `i * cols + j`. -/
def argmaxStep (A : Tensor) (s : ℕ × ℚ) (ij : ℕ × ℕ) : ℕ × ℚ :=
  if s.2 < A.entry ij.1 ij.2 then (ij.1 * A.cols + ij.2, A.entry ij.1 ij.2) else s

/-- The row-major scan order of the double loop in `argmax`. -/
def scanPairs (A : Tensor) : List (ℕ × ℕ) :=
  (List.range A.rows).flatMap fun i => (List.range A.cols).map fun j => (i, j)

/-- `argmax(A)`: scans all entries in row-major order tracking the flat index
of the (strictly) maximal value, starting from `A(0,0)`; returns the flat
index for a 1-row tensor, and the flat index modulo `cols` otherwise. -/
def argmax (A : Tensor) : ℕ :=
  let s := (scanPairs A).foldl (argmaxStep A) (0, A.entry 0 0)
  if A.rows = 1 then s.1 else s.1 % A.cols

/-- Supported activation functions. -/
inductive ActivationType where
  | STEP | LINEAR | RELU | LEAKY_RELU | PRELU | SIGMOID | TANH
  | ELU | SELU | GELU | SWISH | SOFTMAX
deriving DecidableEq, Repr

/-- Activation layer: kind, the two scalar hyperparameters, and the cached
last input and output tensors. -/
structure Activation where
  type : ActivationType
  alpha : ℚ := 0.01
  beta : ℚ := 1
  input_cache : Tensor := Tensor.mkZero 0 0
  output_cache : Tensor := Tensor.mkZero 0 0

namespace Activation

/-- Elementwise activation formula (private `activate`). -/
def activate (c : CMath) (a : Activation) (x : ℚ) : ℚ :=
  match a.type with
  | .STEP => if 0 < x then 1 else 0
  | .LINEAR => x
  | .RELU => max 0 x
  | .LEAKY_RELU => if 0 < x then x else a.alpha * x
  | .PRELU => if 0 < x then x else a.alpha * x
  | .SIGMOID => 1 / (1 + c.exp (-x))
  | .TANH => c.tanh x
  | .ELU => if 0 ≤ x then x else a.alpha * (c.exp x - 1)
  | .SELU => 1.050700987 * (if 0 < x then x else 1.673263242 * (c.exp x - 1))
  | .GELU => 0.5 * x * (1 + c.tanh (c.sqrt (2 / M_PI) * (x + 0.044715 * x ^ 3)))
  | .SWISH => x / (1 + c.exp (-a.beta * x))
  | .SOFTMAX => x

/-- Elementwise derivative table (private `derivative`), taking the cached
pre-activation `x` and post-activation `y`. -/
def derivative (c : CMath) (a : Activation) (x y : ℚ) : ℚ :=
  match a.type with
  | .STEP => 0
  | .LINEAR => 1
  | .RELU => if 0 < x then 1 else 0
  | .LEAKY_RELU => if 0 < x then 1 else a.alpha
  | .PRELU => if 0 < x then 1 else a.alpha
  | .SIGMOID => y * (1 - y)
  | .TANH => 1 - y * y
  | .ELU => if 0 ≤ x then 1 else a.alpha * c.exp x
  | .SELU => if 0 < x then 1.050700987 else 1.050700987 * 1.673263242 * c.exp x
  | .GELU => 0.5 * (1 + c.tanh (c.sqrt (2 / M_PI) * (x + 0.044715 * x ^ 3)))
  | .SWISH =>
      let sig := 1 / (1 + c.exp (-a.beta * x))
      sig + a.beta * x * sig * (1 - sig)
  | .SOFTMAX => 1

/-- Maximum of row `i` as scanned by the first softmax loop:
start from `X(i,0)`, then fold `max` over columns `1 .. cols-1`. -/
def rowMax (X : Tensor) (i : ℕ) : ℚ :=
  (List.range (X.cols - 1)).foldl (fun m j => max m (X.entry i (j + 1))) (X.entry i 0)

/-- The value written to `X(i,j)` by the second softmax loop. -/
def rowExp (c : CMath) (X : Tensor) (i j : ℕ) : ℚ :=
  c.exp (X.entry i j - rowMax X i)

/-- Accumulated `sum` of the second softmax loop over row `i`. -/
def rowExpSum (c : CMath) (X : Tensor) (i : ℕ) : ℚ :=
  (List.range X.cols).foldl (fun s j => s + rowExp c X i j) 0

/-- Row-wise numerically-stable softmax (private `softmax`): subtract each
row's maximum, exponentiate, divide by the row's exponential sum. -/
def softmaxT (c : CMath) (X : Tensor) : Tensor :=
  ⟨X.rows, X.cols, fun idx =>
    let i := idx / X.cols
    let j := idx % X.cols
    rowExp c X i j / rowExpSum c X i⟩

/-- Forward pass: cache the input, apply `activate` elementwise, then (for
softmax only) the row-wise normalization; cache and return the output. -/
def forward (c : CMath) (a : Activation) (X : Tensor) : Activation × Tensor :=
  let Y0 : Tensor := ⟨X.rows, X.cols, fun idx => a.activate c (X.data idx)⟩
  let Y := if a.type = .SOFTMAX then softmaxT c Y0 else Y0
  ({ a with input_cache := X, output_cache := Y }, Y)

/-- Backward pass, requires `dOut` to have the cached output's shape
(asserts).  Softmax short-circuits to `dOut`; every other kind multiplies
`dOut` elementwise by the derivative at the cached input/output. -/
def backward (c : CMath) (a : Activation) (dOut : Tensor) : Tensor :=
  if a.type = .SOFTMAX then dOut
  else
    ⟨dOut.rows, dOut.cols, fun idx =>
      let i := idx / dOut.cols
      let j := idx % dOut.cols
      dOut.entry i j * a.derivative c (a.input_cache.entry i j) (a.output_cache.entry i j)⟩

end Activation

/-- Supported loss functions. -/
inductive LossType where
  | MEAN_SQUARED_ERROR
  | BINARY_CROSS_ENTROPY
  | CATEGORICAL_CROSS_ENTROPY
  | SPARSE_CATEGORICAL_CROSS_ENTROPY
deriving DecidableEq, Repr

/-- `std::clamp(v, lo, hi)`. -/
def clampQ (v lo hi : ℚ) : ℚ := if v < lo then lo else if hi < v then hi else v

/-- Unified loss interface: kind, class count, epsilon clamp. -/
structure Loss where
  type : LossType
  num_classes : ℕ := 0
  eps : ℚ := 1e-7

namespace Loss

/-- Mean squared error: mean over all entries of `(pred - true)²`. -/
def mse (y_pred y_true : Tensor) : ℚ :=
  (∑ i ∈ Finset.range y_pred.rows, ∑ j ∈ Finset.range y_pred.cols,
    (y_pred.entry i j - y_true.entry i j) ^ 2) / (y_pred.rows * y_pred.cols)

/-- MSE gradient: `2/(rows*cols) * (pred - true)` elementwise. -/
def mse_backward (y_pred y_true : Tensor) : Tensor :=
  ⟨y_pred.rows, y_pred.cols, fun idx =>
    let i := idx / y_pred.cols
    let j := idx % y_pred.cols
    2 / (y_pred.rows * y_pred.cols) * (y_pred.entry i j - y_true.entry i j)⟩

/-- Per-row binary cross-entropy term, with the probability clamped to
`[eps, 1-eps]`. -/
def bceTerm (l : Loss) (c : CMath) (pv y : ℚ) : ℚ :=
  let p := clampQ pv l.eps (1 - l.eps);
  -(y * c.log p + (1 - y) * c.log (1 - p))

/-- Binary cross-entropy over a single-column prediction. -/
def binary_cross_entropy (l : Loss) (c : CMath) (y_pred y_true : Tensor) : ℚ :=
  (∑ i ∈ Finset.range y_pred.rows,
    l.bceTerm c (y_pred.entry i 0) (y_true.entry i 0)) / y_pred.rows

/-- Binary cross-entropy gradient. -/
def binary_cross_entropy_backward (l : Loss) (y_pred y_true : Tensor) : Tensor :=
  ⟨y_pred.rows, 1, fun idx =>
    let i := idx
    let p := clampQ (y_pred.entry i 0) l.eps (1 - l.eps)
    let y := y_true.entry i 0
    (p - y) / (p * (1 - p))⟩

/-- Categorical cross-entropy against a dense one-hot-style target. -/
def categorical_cross_entropy (l : Loss) (c : CMath) (y_pred y_true : Tensor) : ℚ :=
  (∑ i ∈ Finset.range y_pred.rows, ∑ j ∈ Finset.range y_pred.cols,
    if 0 < y_true.entry i j then -c.log (max (y_pred.entry i j) l.eps) else 0) / y_pred.rows

/-- Categorical cross-entropy gradient: `(pred - true)/rows`. -/
def categorical_cross_entropy_backward (y_pred y_true : Tensor) : Tensor :=
  ⟨y_pred.rows, y_pred.cols, fun idx =>
    let i := idx / y_pred.cols
    let j := idx % y_pred.cols
    (y_pred.entry i j - y_true.entry i j) / y_pred.rows⟩

/-- Sparse categorical cross-entropy against integer class labels (the C++
`std::vector<int>` of one label per row, modelled as `ℕ → ℤ`; the label is
used as a column index, hence the `toNat`). -/
def sparse_categorical_cross_entropy (l : Loss) (c : CMath)
    (y_pred : Tensor) (y_true : ℕ → ℤ) : ℚ :=
  (∑ i ∈ Finset.range y_pred.rows,
    -c.log (max (y_pred.entry i (y_true i).toNat) l.eps)) / y_pred.rows

/-- The inner write loop of the sparse backward for row `i`:
`grad(i, j) = y_pred(i, j)` for each `j < cols` in order. -/
def sccebRowWrite (y_pred : Tensor) (i : ℕ) (g : ℕ → ℚ) : ℕ → ℚ :=
  (List.range y_pred.cols).foldl
    (fun g j => Function.update g (i * y_pred.cols + j) (y_pred.entry i j)) g

/-- One iteration of the outer loop of the sparse backward: write row `i`
from `y_pred`, then `grad(i, y_true[i]) -= 1`. -/
def sccebRow (y_pred : Tensor) (y_true : ℕ → ℤ) (i : ℕ) (g : ℕ → ℚ) : ℕ → ℚ :=
  let g1 := sccebRowWrite y_pred i g
  let k := i * y_pred.cols + (y_true i).toNat
  Function.update g1 k (g1 k - 1)

/-- Sparse categorical cross-entropy backward: copy `y_pred`, subtract 1 at
each row's true-class column, then scale every buffer element by
`inv_batch = 1/rows`. -/
def sparse_categorical_cross_entropy_backward (y_pred : Tensor) (y_true : ℕ → ℤ) : Tensor :=
  let g := (List.range y_pred.rows).foldl (fun g i => sccebRow y_pred y_true i g) (fun _ => 0)
  ⟨y_pred.rows, y_pred.cols, fun idx => g idx * (1 / (y_pred.rows : ℚ))⟩

/-- Forward loss dispatch.  The first three kinds unconditionally dereference
the dense-target pointer (default `nullptr`, modelled as `none`): with a null
target they are undefined behaviour, `none` here. -/
def forward (l : Loss) (c : CMath) (y_pred : Tensor) (y_true_sparse : ℕ → ℤ)
    (y_true_dense : Option Tensor) : Option ℚ :=
  match l.type with
  | .MEAN_SQUARED_ERROR => y_true_dense.map fun t => mse y_pred t
  | .BINARY_CROSS_ENTROPY => y_true_dense.map fun t => l.binary_cross_entropy c y_pred t
  | .CATEGORICAL_CROSS_ENTROPY => y_true_dense.map fun t => l.categorical_cross_entropy c y_pred t
  | .SPARSE_CATEGORICAL_CROSS_ENTROPY =>
      some (l.sparse_categorical_cross_entropy c y_pred y_true_sparse)

/-- Backward gradient dispatch, with the same null-dereference structure as
`forward`. -/
def backward (l : Loss) (y_pred : Tensor) (y_true_sparse : ℕ → ℤ)
    (y_true_dense : Option Tensor) : Option Tensor :=
  match l.type with
  | .MEAN_SQUARED_ERROR => y_true_dense.map fun t => mse_backward y_pred t
  | .BINARY_CROSS_ENTROPY => y_true_dense.map fun t => l.binary_cross_entropy_backward y_pred t
  | .CATEGORICAL_CROSS_ENTROPY => y_true_dense.map fun t => categorical_cross_entropy_backward y_pred t
  | .SPARSE_CATEGORICAL_CROSS_ENTROPY =>
      some (sparse_categorical_cross_entropy_backward y_pred y_true_sparse)

end Loss

/-- A trainable parameter: `data` and `grad` buffers of length `size`.
`size` models `param.data.size()`; `id` models the C++ `Parameter*` address
by which optimizers key their per-parameter auxiliary state. -/
structure Parameter where
  id : ℕ
  size : ℕ
  data : ℕ → ℚ
  grad : ℕ → ℚ

/-- SGD optimizer state: learning rate, momentum factor, and the velocity
table keyed by parameter identity (absent = not yet initialized). -/
structure SGDOptimizer where
  lr : ℚ
  momentum : ℚ := 0
  velocity : ℕ → Option (ℕ → ℚ) := fun _ => none

/-- `SGDOptimizer::step`: with positive momentum, lazily zero-initialize the
parameter's velocity, set `v[i] = momentum*v[i] - lr*grad[i]` and
`data[i] += v[i]`; otherwise plain `data[i] -= lr*grad[i]`. -/
def SGDOptimizer.step (s : SGDOptimizer) (p : Parameter) : SGDOptimizer × Parameter :=
  if 0 < s.momentum then
    let v0 := (s.velocity p.id).getD fun _ => 0
    let v1 := fun i => s.momentum * v0 i - s.lr * p.grad i
    ({ s with velocity := Function.update s.velocity p.id (some v1) },
     { p with data := fun i => p.data i + v1 i })
  else
    (s, { p with data := fun i => p.data i - s.lr * p.grad i })

/-- RMSProp optimizer state: running squared-gradient cache keyed by
parameter identity. -/
structure RMSPropOptimizer where
  lr : ℚ
  beta : ℚ := 0.9
  eps : ℚ := 1e-8
  cache : ℕ → Option (ℕ → ℚ) := fun _ => none

/-- `RMSPropOptimizer::step`: `v = beta*v + (1-beta)*grad²` elementwise, then
`data -= lr*grad/(sqrt(v)+eps)`. -/
def RMSPropOptimizer.step (c : CMath) (s : RMSPropOptimizer) (p : Parameter) :
    RMSPropOptimizer × Parameter :=
  let v0 := (s.cache p.id).getD fun _ => 0
  let v1 := fun i => s.beta * v0 i + (1 - s.beta) * p.grad i * p.grad i
  ({ s with cache := Function.update s.cache p.id (some v1) },
   { p with data := fun i => p.data i - s.lr * p.grad i / (c.sqrt (v1 i) + s.eps) })

/-- Adam optimizer state: one step counter for the whole instance, and
first/second moment tables keyed by parameter identity. -/
structure AdamOptimizer where
  lr : ℚ
  beta1 : ℚ := 0.9
  beta2 : ℚ := 0.999
  eps : ℚ := 1e-8
  timestep : ℕ := 0
  m : ℕ → Option (ℕ → ℚ) := fun _ => none
  v : ℕ → Option (ℕ → ℚ) := fun _ => none

/-- The elementwise Adam update applied to `data[i]`, at shared step `t`. -/
def adamUpdate (c : CMath) (s : AdamOptimizer) (t : ℕ) (m1 v1 : ℕ → ℚ)
    (p : Parameter) (i : ℕ) : ℚ :=
  let m_hat := m1 i / (1 - s.beta1 ^ t)
  let v_hat := v1 i / (1 - s.beta2 ^ t)
  p.data i - s.lr * m_hat / (c.sqrt v_hat + s.eps)

/-- `AdamOptimizer::step`: increment the shared `timestep`, lazily
zero-initialize this parameter's moment buffers, update
`m = beta1*m + (1-beta1)*grad` and `v = beta2*v + (1-beta2)*grad²`, and apply
the bias-corrected update with the shared step count. -/
def AdamOptimizer.step (c : CMath) (s : AdamOptimizer) (p : Parameter) :
    AdamOptimizer × Parameter :=
  let t := s.timestep + 1
  let m0 := (s.m p.id).getD fun _ => 0
  let v0 := (s.v p.id).getD fun _ => 0
  let m1 := fun i => s.beta1 * m0 i + (1 - s.beta1) * p.grad i
  let v1 := fun i => s.beta2 * v0 i + (1 - s.beta2) * p.grad i * p.grad i
  ({ s with timestep := t,
            m := Function.update s.m p.id (some m1),
            v := Function.update s.v p.id (some v1) },
   { p with data := fun i => adamUpdate c s t m1 v1 p i })

/-- The closed optimizer hierarchy (base class `Optimizer` with its three
implementations). -/
inductive Optimizer where
  | sgd : SGDOptimizer → Optimizer
  | rmsprop : RMSPropOptimizer → Optimizer
  | adam : AdamOptimizer → Optimizer

/-- Fully connected layer: weights `W` (input_dim × output_dim), bias `b`
(length `W.cols`), their gradient buffers, the optimizer-facing parameter
copies, the cached forward input, and the embedded activation. -/
structure DenseLayer where
  W : Tensor
  b : ℕ → ℚ
  grad_W : Tensor
  grad_b : ℕ → ℚ
  W_param : Parameter
  b_param : Parameter
  input_cache : Tensor := Tensor.mkZero 0 0
  activation : Activation

namespace DenseLayer

/-- The constructor `DenseLayer(input_dim, output_dim, act_type)`: zero
weights, biases and gradients, with `W_param`/`b_param` initialized to copies
of the same data (ids model the addresses of the two embedded fields). -/
def mk' (wid : ℕ) (input_dim output_dim : ℕ) (act_type : ActivationType) : DenseLayer :=
  { W := Tensor.mkZero input_dim output_dim
    b := fun _ => 0
    grad_W := Tensor.mkZero input_dim output_dim
    grad_b := fun _ => 0
    W_param := ⟨wid, input_dim * output_dim, fun _ => 0, fun _ => 0⟩
    b_param := ⟨wid + 1, output_dim, fun _ => 0, fun _ => 0⟩
    activation := { type := act_type } }

/-- Forward pass: requires `X.cols = W.rows` (assert); caches `X`, computes
`activation.forward(matmul(X, W) + b)`. -/
def forward (c : CMath) (L : DenseLayer) (X : Tensor) : DenseLayer × Tensor :=
  let out := add_bias (matmul X L.W) L.b
  let af := L.activation.forward c out
  ({ L with input_cache := X, activation := af.1 }, af.2)

/-- The bias-gradient accumulation loop: zero `grad_b`, then
`grad_b[j] += dAct(i, j)` over all rows and columns in order. -/
def biasGradLoop (dAct : Tensor) : ℕ → ℚ :=
  ((List.range dAct.rows).flatMap fun i => (List.range dAct.cols).map fun j => (i, j)).foldl
    (fun g ij => Function.update g ij.2 (g ij.2 + dAct.entry ij.1 ij.2))
    (fun _ => 0)

/-- Backward pass: requires `dOut.cols = W.cols` and
`dOut.rows = input_cache.rows` (asserts).  Computes
`dAct = activation.backward(dOut)`, overwrites `grad_W` with
`transpose(input_cache) * dAct` and `grad_b` with the column sums of `dAct`,
syncs the gradients into the parameter views, and returns
`dX = dAct * transpose(W)`. -/
def backward (c : CMath) (L : DenseLayer) (dOut : Tensor) : DenseLayer × Tensor :=
  let dAct := L.activation.backward c dOut
  let gW := matmul (transpose L.input_cache) dAct
  let gb := biasGradLoop dAct
  let dX := matmul dAct (transpose L.W)
  ({ L with grad_W := gW, grad_b := gb,
            W_param := { L.W_param with grad := gW.data },
            b_param := { L.b_param with grad := gb } }, dX)

end DenseLayer

/-- Sequential model: layer stack plus the loss and optimizer references
bound by `compile` (null before compilation). -/
structure Model where
  layers : List DenseLayer := []
  loss_fn : Option Loss := none
  optimizer : Option Optimizer := none

namespace Model

/-- `Model::add`: push a layer reference. -/
def add (m : Model) (L : DenseLayer) : Model :=
  { m with layers := m.layers ++ [L] }

/-- `Model::compile`: bind the loss and the optimizer. -/
def compile (m : Model) (l : Loss) (o : Optimizer) : Model :=
  { m with loss_fn := some l, optimizer := some o }

/-- `forward_internal`: chain every layer's forward in order, threading the
updated (cache-carrying) layers. -/
def forwardLayers (c : CMath) : List DenseLayer → Tensor → List DenseLayer × Tensor
  | [], x => ([], x)
  | L :: ls, x =>
      let fy := L.forward c x
      let rest := forwardLayers c ls fy.2
      (fy.1 :: rest.1, rest.2)

/-- `backward_internal`: chain every layer's backward in reverse order. -/
def backwardLayers (c : CMath) : List DenseLayer → Tensor → List DenseLayer × Tensor
  | [], g => ([], g)
  | L :: ls, g =>
      let rest := backwardLayers c ls g
      let bg := L.backward c rest.2
      (bg.1 :: rest.1, bg.2)

/-- `optimizer_step`: the per-iteration update hook inside `fit` — a
placeholder that does nothing (the source comment: actual weight updates
should be handled elsewhere). -/
def optimizer_step (layers : List DenseLayer) : List DenseLayer :=
  layers

/-- The per-example body of the `fit` loop: forward, loss forward (with the
dense-target pointer left at its null default), accuracy flag via
`argmax == y[i]`, loss backward (again with null dense target), backprop,
and the no-op optimizer hook.  The running state is
`(layers, epoch_loss, correct)`. -/
def fitExamples (c : CMath) (l : Loss) :
    List (Tensor × ℤ) → List DenseLayer × ℚ × ℕ → Option (List DenseLayer × ℚ × ℕ)
  | [], st => some st
  | (x, y) :: rest, (layers, epoch_loss, correct) =>
      let fwd := forwardLayers c layers x
      match l.forward c fwd.2 (fun _ => y) none with
      | none => none
      | some lossv =>
        let correct1 := if (argmax fwd.2 : ℤ) = y then correct + 1 else correct
        match l.backward fwd.2 (fun _ => y) none with
        | none => none
        | some grad =>
            let bwd := backwardLayers c fwd.1 grad
            fitExamples c l rest (optimizer_step bwd.1, epoch_loss + lossv, correct1)

/-- The epoch loop of `fit`: run every example, `epochs` times over. -/
def fitEpochs (c : CMath) (l : Loss) (data : List (Tensor × ℤ)) :
    ℕ → List DenseLayer → Option (List DenseLayer)
  | 0, layers => some layers
  | n + 1, layers =>
      match fitExamples c l data (layers, 0, 0) with
      | none => none
      | some st => fitEpochs c l data n st.1

/-- `Model::fit`: asserts the model is compiled (loss and optimizer bound),
then runs the epoch loop.  `batch_size` is accepted and ignored, as in the
source. -/
def fit (c : CMath) (m : Model) (X : List Tensor) (y : List ℤ)
    (epochs : ℕ) (batch_size : ℕ := 1) : Option Model :=
  match m.loss_fn, m.optimizer with
  | some l, some _ =>
      match fitEpochs c l (X.zip y) epochs m.layers with
      | none => none
      | some layers => some { m with layers := layers }
  | _, _ => none

/-- The per-example body of the `evaluate` loop:
`(layers, total_loss, correct)`. -/
def evalExamples (c : CMath) (l : Loss) :
    List (Tensor × ℤ) → List DenseLayer × ℚ × ℕ → Option (List DenseLayer × ℚ × ℕ)
  | [], st => some st
  | (x, y) :: rest, (layers, total_loss, correct) =>
      let fwd := forwardLayers c layers x
      match l.forward c fwd.2 (fun _ => y) none with
      | none => none
      | some lossv =>
        let correct1 := if (argmax fwd.2 : ℤ) = y then correct + 1 else correct
        evalExamples c l rest (fwd.1, total_loss + lossv, correct1)

/-- `Model::evaluate`: asserts a loss is bound, accumulates mean loss and
accuracy over the examples, and returns the accuracy `correct / X.size()`. -/
def evaluate (c : CMath) (m : Model) (X : List Tensor) (y : List ℤ) : Option ℚ :=
  match m.loss_fn with
  | some l =>
      match evalExamples c l (X.zip y) (m.layers, 0, 0) with
      | none => none
      | some st => some ((st.2.2 : ℚ) / (X.length : ℚ))
  | none => none

/-- `Model::predict`: a bare forward chain. -/
def predict (c : CMath) (m : Model) (input : Tensor) : Tensor :=
  (forwardLayers c m.layers input).2

end Model

/-! ### Index and fold helper lemmas -/

/-- Row-major flat index: quotient recovers the row. -/
theorem flat_div {c : ℕ} (i : ℕ) {j : ℕ} (h : j < c) : (i * c + j) / c = i := by
  have hc : 0 < c := Nat.pos_of_ne_zero (by omega)
  rw [mul_comm i c, Nat.mul_add_div hc, Nat.div_eq_of_lt h, add_zero]

/-- Row-major flat index: remainder recovers the column. -/
theorem flat_mod {c : ℕ} (i : ℕ) {j : ℕ} (h : j < c) : (i * c + j) % c = j := by
  rw [mul_comm i c, Nat.mul_add_mod, Nat.mod_eq_of_lt h]

/-- A left fold of `+` over `List.range` is the corresponding finite sum. -/
theorem foldl_add_range (f : ℕ → ℚ) (n : ℕ) (a : ℚ) :
    (List.range n).foldl (fun s j => s + f j) a = a + ∑ j ∈ Finset.range n, f j := by
  induction n generalizing a with
  | zero => simp
  | succ n ih =>
      rw [List.range_succ, List.foldl_append, Finset.sum_range_succ, ih]
      simp [add_assoc]

/-- Entry characterization of `matmul` (for an in-range column). -/
theorem matmul_entry (A B : Tensor) (i : ℕ) {j : ℕ} (hj : j < B.cols) :
    (matmul A B).entry i j = ∑ k ∈ Finset.range A.cols, A.entry i k * B.entry k j := by
  show (let i0 := (i * B.cols + j) / B.cols
        let j0 := (i * B.cols + j) % B.cols
        (List.range A.cols).foldl (fun sum k => sum + A.entry i0 k * B.entry k j0) 0)
      = _
  simp only [flat_div i hj, flat_mod i hj]
  rw [foldl_add_range (fun k => A.entry i k * B.entry k j) A.cols 0, zero_add]

/-- Entry characterization of `transpose` (for an in-range column). -/
theorem transpose_entry (A : Tensor) (p : ℕ) {q : ℕ} (hq : q < A.rows) :
    (transpose A).entry p q = A.entry q p := by
  show A.entry ((p * A.rows + q) % A.rows) ((p * A.rows + q) / A.rows) = _
  rw [flat_div p hq, flat_mod p hq]

/-- Entry characterization of `add_bias` (for an in-range column). -/
theorem add_bias_entry (A : Tensor) (b : ℕ → ℚ) (i : ℕ) {j : ℕ} (hj : j < A.cols) :
    (add_bias A b).entry i j = A.entry i j + b j := by
  show A.data (i * A.cols + j) + b ((i * A.cols + j) % A.cols) = _
  rw [flat_mod i hj]
  rfl

/-- A fold of writes at keys `base + j`, `j < n`: an in-range key holds the
last written value. -/
theorem foldl_update_block_in (f : ℕ → ℚ) (base n : ℕ) (g : ℕ → ℚ) {j : ℕ} (hj : j < n) :
    ((List.range n).foldl (fun g j => Function.update g (base + j) (f j)) g) (base + j)
      = f j := by
  induction n generalizing g with
  | zero => omega
  | succ n ih =>
      rw [List.range_succ, List.foldl_append]
      simp only [List.foldl_cons, List.foldl_nil]
      rcases Nat.lt_succ_iff_lt_or_eq.mp hj with h | h
      · rw [Function.update_noteq (by omega)]
        exact ih _ h
      · subst h
        rw [Function.update_same]

/-- A fold of writes at keys `base + j`, `j < n`: keys outside the block are
untouched. -/
theorem foldl_update_block_out (f : ℕ → ℚ) (base n : ℕ) (g : ℕ → ℚ) {k : ℕ}
    (hk : k < base ∨ base + n ≤ k) :
    ((List.range n).foldl (fun g j => Function.update g (base + j) (f j)) g) k = g k := by
  induction n generalizing g with
  | zero => simp
  | succ n ih =>
      rw [List.range_succ, List.foldl_append]
      simp only [List.foldl_cons, List.foldl_nil]
      rw [Function.update_noteq (by omega)]
      exact ih _ (by omega)

/-- In-range characterization of the inner write loop of the sparse
cross-entropy backward. -/
theorem sccebRowWrite_in (y_pred : Tensor) (i : ℕ) (g : ℕ → ℚ) {j : ℕ} (hj : j < y_pred.cols) :
    Loss.sccebRowWrite y_pred i g (i * y_pred.cols + j) = y_pred.entry i j :=
  foldl_update_block_in (fun j => y_pred.entry i j) (i * y_pred.cols) y_pred.cols g hj

/-- Keys outside row `i`'s block are untouched by the inner write loop. -/
theorem sccebRowWrite_out (y_pred : Tensor) (i : ℕ) (g : ℕ → ℚ) {k : ℕ}
    (hk : k < i * y_pred.cols ∨ i * y_pred.cols + y_pred.cols ≤ k) :
    Loss.sccebRowWrite y_pred i g k = g k :=
  foldl_update_block_out (fun j => y_pred.entry i j) (i * y_pred.cols) y_pred.cols g hk

/-- In-range characterization of one outer iteration of the sparse
cross-entropy backward: row `i` holds `pred` minus one at the label column. -/
theorem sccebRow_in (y_pred : Tensor) (y_true : ℕ → ℤ) (i : ℕ) (g : ℕ → ℚ)
    (hv : (y_true i).toNat < y_pred.cols) {j : ℕ} (hj : j < y_pred.cols) :
    Loss.sccebRow y_pred y_true i g (i * y_pred.cols + j)
      = y_pred.entry i j - (if j = (y_true i).toNat then 1 else 0) := by
  unfold Loss.sccebRow
  by_cases h : j = (y_true i).toNat
  · subst h
    rw [Function.update_same, sccebRowWrite_in y_pred i g hj, if_pos rfl]
  · rw [Function.update_noteq (by omega), sccebRowWrite_in y_pred i g hj, if_neg h, sub_zero]

/-- Keys outside row `i`'s block are untouched by one outer iteration. -/
theorem sccebRow_out (y_pred : Tensor) (y_true : ℕ → ℤ) (i : ℕ) (g : ℕ → ℚ)
    (hv : (y_true i).toNat < y_pred.cols) {k : ℕ}
    (hk : k < i * y_pred.cols ∨ i * y_pred.cols + y_pred.cols ≤ k) :
    Loss.sccebRow y_pred y_true i g k = g k := by
  unfold Loss.sccebRow
  rw [Function.update_noteq (by omega), sccebRowWrite_out y_pred i g hk]

/-- The outer fold of the sparse cross-entropy backward: each processed row
holds its final values, independent of the initial buffer. -/
theorem sccebFold_in (y_pred : Tensor) (y_true : ℕ → ℤ) (n : ℕ)
    (hv : ∀ r < n, (y_true r).toNat < y_pred.cols) (g : ℕ → ℚ)
    {i : ℕ} (hi : i < n) {j : ℕ} (hj : j < y_pred.cols) :
    ((List.range n).foldl (fun g i => Loss.sccebRow y_pred y_true i g) g) (i * y_pred.cols + j)
      = y_pred.entry i j - (if j = (y_true i).toNat then 1 else 0) := by
  induction n generalizing g with
  | zero => omega
  | succ n ih =>
      rw [List.range_succ, List.foldl_append]
      simp only [List.foldl_cons, List.foldl_nil]
      rcases Nat.lt_succ_iff_lt_or_eq.mp hi with h | h
      · have hkey : i * y_pred.cols + j < n * y_pred.cols := by
          calc i * y_pred.cols + j < i * y_pred.cols + y_pred.cols := by omega
          _ = (i + 1) * y_pred.cols := by ring
          _ ≤ n * y_pred.cols := Nat.mul_le_mul_right _ (by omega)
        rw [sccebRow_out y_pred y_true n _ (hv n (by omega)) (Or.inl (by omega))]
        exact ih (fun r hr => hv r (by omega)) _ h
      · subst h
        exact sccebRow_in y_pred y_true i _ (hv i (by omega)) hj

/-- Claim C1: for a prediction tensor and one valid integer class label per
row, the sparse categorical cross-entropy backward has entry `(i, j)` equal
to `(pred(i,j) - one_hot(label_i)(j)) / rows`. -/
theorem scce_backward_is_pred_minus_onehot_over_rows (y_pred : Tensor) (y_true : ℕ → ℤ)
    (hv : ∀ r < y_pred.rows, 0 ≤ y_true r ∧ y_true r < (y_pred.cols : ℤ)) :
    ∀ i < y_pred.rows, ∀ j < y_pred.cols,
      (Loss.sparse_categorical_cross_entropy_backward y_pred y_true).entry i j
        = (y_pred.entry i j - (if y_true i = (j : ℤ) then 1 else 0)) / (y_pred.rows : ℚ) := by
  intro i hi j hj
  have hv' : ∀ r < y_pred.rows, (y_true r).toNat < y_pred.cols := by
    intro r hr
    have := hv r hr
    omega
  show ((List.range y_pred.rows).foldl (fun g i => Loss.sccebRow y_pred y_true i g)
      (fun _ => 0)) (i * y_pred.cols + j) * (1 / (y_pred.rows : ℚ)) = _
  rw [sccebFold_in y_pred y_true y_pred.rows hv' _ hi hj, mul_one_div]
  have hlab : (j = (y_true i).toNat) ↔ (y_true i = (j : ℤ)) := by
    have := (hv i hi).1
    omega
  by_cases h : y_true i = (j : ℤ)
  · rw [if_pos (hlab.mpr h), if_pos h]
  · rw [if_neg (fun hc => h (hlab.mp hc)), if_neg h]

/-- A concrete 2x2 prediction tensor used by witnesses. -/
def predW : Tensor :=
  ⟨2, 2, fun idx => if idx = 0 then 0.5 else if idx = 1 then 0.5 else if idx = 2 then 0.2 else 0.8⟩

/-- Concrete labels (row 0 ↦ class 0, row 1 ↦ class 1) used by witnesses. -/
def labelsW : ℕ → ℤ := fun r => if r = 0 then 0 else 1

/-- Witness for C1 at the concrete prediction `predW`, labels `labelsW`:
entry (0,0) of the backward is `(0.5 - 1)/2 = -0.25`. -/
theorem scce_backward_witness :
    (∀ r < predW.rows, 0 ≤ labelsW r ∧ labelsW r < (predW.cols : ℤ)) ∧
    (Loss.sparse_categorical_cross_entropy_backward predW labelsW).entry 0 0 = -0.25 := by
  refine ⟨by decide, ?_⟩
  have h := scce_backward_is_pred_minus_onehot_over_rows predW labelsW (by decide)
    0 (by decide) 0 (by decide)
  rw [h]
  norm_num [predW, labelsW, Tensor.entry]

/-- Claim C2: for a softmax activation, after any forward call, the backward
pass applied to a gradient of the cached output's shape returns that gradient
unchanged (the derivative table is never consulted). -/
theorem softmax_backward_returns_dOut (c : CMath) (a : Activation) (X dOut : Tensor)
    (ha : a.type = .SOFTMAX)
    (hr : dOut.rows = ((a.forward c X).1).output_cache.rows)
    (hc : dOut.cols = ((a.forward c X).1).output_cache.cols) :
    ((a.forward c X).1).backward c dOut = dOut := by
  have ht : ((a.forward c X).1).type = .SOFTMAX := by
    simp [Activation.forward, ha]
  unfold Activation.backward
  rw [if_pos ht]

/-- A concrete `CMath` instantiation for witnesses: `exp` is the constant 1
(everywhere positive), the rest are constant 0. -/
def cmathW : CMath := ⟨fun _ => 1, fun _ => 0, fun _ => 0, fun _ => 0⟩

/-- A concrete softmax activation for witnesses. -/
def softmaxActW : Activation := { type := .SOFTMAX }

/-- The spec's numerical-stability example row `[1000, 1, 0]`. -/
def bigRowW : Tensor := ⟨1, 3, fun idx => if idx = 0 then 1000 else if idx = 1 then 1 else 0⟩

/-- Witness for C2: after a forward pass of the concrete softmax activation
on `[1000, 1, 0]`, backward on a same-shaped gradient returns it unchanged. -/
theorem softmax_backward_returns_dOut_witness :
    softmaxActW.type = .SOFTMAX ∧
    ((softmaxActW.forward cmathW bigRowW).1).backward cmathW
        ⟨1, 3, fun idx => (idx : ℚ)⟩ = ⟨1, 3, fun idx => (idx : ℚ)⟩ :=
  ⟨rfl, softmax_backward_returns_dOut cmathW softmaxActW bigRowW _ rfl rfl rfl⟩

/-- The elementwise `activate` pass of a softmax forward call leaves the
tensor unchanged, so the forward output is `softmaxT` of the input itself. -/
theorem softmax_forward_eq_softmaxT (c : CMath) (a : Activation) (X : Tensor)
    (ha : a.type = .SOFTMAX) :
    (a.forward c X).2 = Activation.softmaxT c X := by
  cases X with
  | mk r cl d =>
      have hact : (fun idx => a.activate c (d idx)) = d := by
        funext idx
        simp [Activation.activate, ha]
      simp [Activation.forward, ha, hact]

/-- Entry characterization of `softmaxT` (for an in-range column). -/
theorem softmaxT_entry (c : CMath) (X : Tensor) (i : ℕ) {j : ℕ} (hj : j < X.cols) :
    (Activation.softmaxT c X).entry i j
      = Activation.rowExp c X i j / Activation.rowExpSum c X i := by
  show Activation.rowExp c X ((i * X.cols + j) / X.cols) ((i * X.cols + j) % X.cols)
      / Activation.rowExpSum c X ((i * X.cols + j) / X.cols) = _
  rw [flat_div i hj, flat_mod i hj]

/-- The accumulated softmax row sum is the finite sum of the row's
exponentials. -/
theorem rowExpSum_eq_sum (c : CMath) (X : Tensor) (i : ℕ) :
    Activation.rowExpSum c X i = ∑ j ∈ Finset.range X.cols, Activation.rowExp c X i j := by
  unfold Activation.rowExpSum
  rw [foldl_add_range (fun j => Activation.rowExp c X i j) X.cols 0, zero_add]

/-- Claim C5: softmax forward computes each output entry as the exponential
of the entry minus its row's maximum, divided by the row's exponential sum;
consequently (for a positive `exp`) every output row sums to 1 and every
output entry is strictly positive. -/
theorem softmax_forward_rows_sum_to_one (c : CMath) (a : Activation) (X : Tensor)
    (ha : a.type = .SOFTMAX) (hexp : ∀ x, 0 < c.exp x) (hcols : 0 < X.cols) :
    (∀ i, ∀ j < X.cols,
        ((a.forward c X).2).entry i j
          = c.exp (X.entry i j - Activation.rowMax X i) / Activation.rowExpSum c X i) ∧
    (∀ i, ∑ j ∈ Finset.range X.cols, ((a.forward c X).2).entry i j = 1) ∧
    (∀ i, ∀ j < X.cols, 0 < ((a.forward c X).2).entry i j) := by
  rw [softmax_forward_eq_softmaxT c a X ha]
  have hsum : ∀ i, 0 < Activation.rowExpSum c X i := by
    intro i
    rw [rowExpSum_eq_sum]
    exact Finset.sum_pos (fun j _ => hexp _) (by simpa using Finset.nonempty_range_iff.mpr (by omega))
  refine ⟨fun i j hj => softmaxT_entry c X i hj, fun i => ?_, fun i j hj => ?_⟩
  · have : ∀ j ∈ Finset.range X.cols,
        (Activation.softmaxT c X).entry i j
          = Activation.rowExp c X i j / Activation.rowExpSum c X i :=
      fun j hj => softmaxT_entry c X i (Finset.mem_range.mp hj)
    rw [Finset.sum_congr rfl this, ← Finset.sum_div, ← rowExpSum_eq_sum,
      div_self (ne_of_gt (hsum i))]
  · rw [softmaxT_entry c X i hj]
    exact div_pos (hexp _) (hsum i)

/-- Witness for C5 on the spec's example row `[1000, 1, 0]` with a concrete
everywhere-positive `exp`: the output row sums to 1 and entry 0 is positive. -/
theorem softmax_forward_rows_sum_to_one_witness :
    softmaxActW.type = .SOFTMAX ∧ 0 < bigRowW.cols ∧
    (∑ j ∈ Finset.range bigRowW.cols,
        ((softmaxActW.forward cmathW bigRowW).2).entry 0 j = 1) ∧
    0 < ((softmaxActW.forward cmathW bigRowW).2).entry 0 0 := by
  have h := softmax_forward_rows_sum_to_one cmathW softmaxActW bigRowW rfl
    (fun x => one_pos) (by decide)
  exact ⟨rfl, by decide, h.2.1 0, h.2.2 0 0 (by decide)⟩

/-- Claim C6: with zero momentum, `SGDOptimizer::step` performs
`data[i] -= lr*grad[i]`; with positive momentum it sets
`v[i] = momentum*v[i] - lr*grad[i]` on a lazily zero-initialized velocity
keyed by the parameter's identity, then `data[i] += v[i]`. -/
theorem sgd_step_update (s : SGDOptimizer) (p : Parameter) (i : ℕ) (hi : i < p.size) :
    (s.momentum = 0 →
      ((s.step p).2).data i = p.data i - s.lr * p.grad i ∧ (s.step p).1 = s) ∧
    (0 < s.momentum →
      ((s.step p).2).data i
          = p.data i + (s.momentum * ((s.velocity p.id).getD (fun _ => 0)) i
              - s.lr * p.grad i) ∧
      ((s.step p).1).velocity p.id
          = some (fun k => s.momentum * ((s.velocity p.id).getD (fun _ => 0)) k
              - s.lr * p.grad k)) := by
  constructor
  · intro h0
    have : ¬ 0 < s.momentum := by rw [h0]; exact lt_irrefl 0
    unfold SGDOptimizer.step
    rw [if_neg this]
    exact ⟨rfl, rfl⟩
  · intro hpos
    unfold SGDOptimizer.step
    rw [if_pos hpos]
    exact ⟨rfl, Function.update_same _ _ _⟩

/-- A concrete single-scalar parameter with `data = 1.0`, `grad = 2.0`. -/
def paramW : Parameter := ⟨0, 1, fun _ => 1, fun _ => 2⟩

/-- Witness for C6, the spec's concrete example: one plain-SGD step with
`lr = 0.1` on `data = 1.0`, `grad = 2.0` yields `data = 0.8`. -/
theorem sgd_step_update_witness :
    (0 : ℕ) < paramW.size ∧
    ((SGDOptimizer.step { lr := 0.1 } paramW).2).data 0 = 0.8 := by
  refine ⟨by decide, ?_⟩
  have h := (sgd_step_update { lr := 0.1 } paramW 0 (by decide)).1 rfl
  rw [h.1]
  norm_num [paramW]

/-- Claim C7: the Adam-style optimizer's step counter is one per optimizer
instance: every `step` call increments it exactly once regardless of the
parameter (or its shape), two successive calls on different parameters
increment it twice, and the elementwise update divides the moments by
`1 - beta^t` with the shared `t`. -/
theorem adam_step_shared_counter (c : CMath) (s : AdamOptimizer) (p q : Parameter)
    (i : ℕ) (hi : i < p.size) :
    ((s.step c p).1).timestep = s.timestep + 1 ∧
    ((s.step c p).1).timestep = ((s.step c q).1).timestep ∧
    ((((s.step c p).1).step c q).1).timestep = s.timestep + 2 ∧
    ((s.step c p).2).data i
      = p.data i
        - s.lr * ((s.beta1 * ((s.m p.id).getD (fun _ => 0)) i + (1 - s.beta1) * p.grad i)
              / (1 - s.beta1 ^ (s.timestep + 1)))
          / (c.sqrt ((s.beta2 * ((s.v p.id).getD (fun _ => 0)) i
                + (1 - s.beta2) * p.grad i * p.grad i)
              / (1 - s.beta2 ^ (s.timestep + 1))) + s.eps) := by
  refine ⟨rfl, rfl, rfl, ?_⟩
  rfl

/-- A second concrete parameter of a different shape (`size = 2`) and
identity, for the shared-counter witness. -/
def paramW2 : Parameter := ⟨1, 2, fun _ => 1, fun _ => 2⟩

/-- Witness for C7: with a fresh Adam instance, stepping the scalar
parameter and then the 2-element parameter yields step counts 1 and 2, and
the scalar update equals the claimed formula. -/
theorem adam_step_shared_counter_witness :
    (0 : ℕ) < paramW.size ∧
    ((AdamOptimizer.step cmathW { lr := 1 } paramW).1).timestep = 1 ∧
    ((((AdamOptimizer.step cmathW { lr := 1 } paramW).1).step cmathW paramW2).1).timestep = 2 ∧
    ((AdamOptimizer.step cmathW { lr := 1 } paramW).2).data 0
      = 1 - 1 * ((0.9 * 0 + (1 - 0.9) * 2) / (1 - 0.9 ^ 1))
          / (cmathW.sqrt ((0.999 * 0 + (1 - 0.999) * 2 * 2) / (1 - 0.999 ^ 1)) + 1e-8) := by
  have h := adam_step_shared_counter cmathW { lr := 1 } paramW paramW2 0 (by decide)
  exact ⟨by decide, h.1, h.2.2.1, h.2.2.2⟩

/-- Claim C9: invoking `fit` or `evaluate` on a model that has not been
compiled (no loss and optimizer bound) hits the fail-fast assert, modelled
as the aborting `none` result rather than any recoverable value. -/
theorem uncompiled_fit_evaluate_abort (c : CMath) (m : Model)
    (X : List Tensor) (y : List ℤ) (epochs bs : ℕ) :
    (m.loss_fn = none ∨ m.optimizer = none → m.fit c X y epochs bs = none) ∧
    (m.loss_fn = none → m.evaluate c X y = none) := by
  constructor
  · intro h
    rcases h with h | h
    · simp [Model.fit, h]
    · unfold Model.fit
      rw [h]
      cases hl : m.loss_fn <;> rfl
  · intro h
    simp [Model.evaluate, h]

/-- Witness for C9: the default (uncompiled) model aborts on both `fit` and
`evaluate`. -/
theorem uncompiled_fit_evaluate_abort_witness :
    Model.fit cmathW {} [] [] 1 1 = none ∧ Model.evaluate cmathW {} [] [] = none :=
  ⟨(uncompiled_fit_evaluate_abort cmathW {} [] [] 1 1).1 (Or.inl rfl),
   (uncompiled_fit_evaluate_abort cmathW {} [] [] 1 1).2 rfl⟩

/-- One row block of the bias-gradient accumulation: position `j` gains
`f i j` exactly when `j < n`. -/
theorem foldl_accum_row (f : ℕ → ℕ → ℚ) (i n : ℕ) (g : ℕ → ℚ) (j : ℕ) :
    (((List.range n).map (fun j => (i, j))).foldl
        (fun g ij => Function.update g ij.2 (g ij.2 + f ij.1 ij.2)) g) j
      = if j < n then g j + f i j else g j := by
  induction n generalizing g with
  | zero => simp
  | succ n ih =>
      rw [List.range_succ, List.map_append, List.foldl_append]
      simp only [List.map_cons, List.map_nil, List.foldl_cons, List.foldl_nil]
      by_cases hj : j = n
      · subst hj
        rw [Function.update_same, ih, if_neg (lt_irrefl j), if_pos (Nat.lt_succ_self j)]
      · rw [Function.update_noteq hj, ih]
        by_cases h2 : j < n
        · rw [if_pos h2, if_pos (by omega)]
        · rw [if_neg h2, if_neg (by omega)]

/-- The whole bias-gradient double loop: position `j` accumulates the sum of
column `j` of `f` over the first `n` rows. -/
theorem foldl_accum_rows (f : ℕ → ℕ → ℚ) (cols n : ℕ) (g : ℕ → ℚ) {j : ℕ} (hj : j < cols) :
    (((List.range n).flatMap fun i => (List.range cols).map fun j => (i, j)).foldl
        (fun g ij => Function.update g ij.2 (g ij.2 + f ij.1 ij.2)) g) j
      = g j + ∑ i ∈ Finset.range n, f i j := by
  induction n generalizing g with
  | zero => simp
  | succ n ih =>
      rw [List.range_succ, List.flatMap_append, List.foldl_append]
      simp only [List.flatMap_cons, List.flatMap_nil, List.append_nil]
      rw [foldl_accum_row f n cols _ j, if_pos hj, ih, Finset.sum_range_succ]
      ring

/-- The bias-gradient loop computes the column-wise sums of `dAct`. -/
theorem biasGradLoop_eq_colsum (dAct : Tensor) {j : ℕ} (hj : j < dAct.cols) :
    DenseLayer.biasGradLoop dAct j = ∑ i ∈ Finset.range dAct.rows, dAct.entry i j := by
  unfold DenseLayer.biasGradLoop
  rw [foldl_accum_rows (fun i j => dAct.entry i j) dAct.cols dAct.rows _ hj, zero_add]

/-- Claim C3: the dense-layer backward pass, with `dAct` the activation
backward of the incoming gradient, overwrites the weight gradient with
`transpose(input) · dAct` (entrywise: sums over the batch rows), overwrites
the bias gradient with the column sums of `dAct`, syncs both into the
optimizer-facing parameter views, and returns `dAct · transpose(W)`; the
results are independent of the previous contents of the gradient buffers. -/
theorem dense_backward_formulas (c : CMath) (L : DenseLayer) (dOut : Tensor)
    (h1 : dOut.cols = L.W.cols) (h2 : dOut.rows = L.input_cache.rows) :
    (∀ i, ∀ j < (L.activation.backward c dOut).cols,
       ((L.backward c dOut).1).grad_W.entry i j
         = ∑ k ∈ Finset.range L.input_cache.rows,
             L.input_cache.entry k i * (L.activation.backward c dOut).entry k j) ∧
    (∀ j < (L.activation.backward c dOut).cols,
       ((L.backward c dOut).1).grad_b j
         = ∑ i ∈ Finset.range (L.activation.backward c dOut).rows,
             (L.activation.backward c dOut).entry i j) ∧
    (∀ i, ∀ j < L.W.rows,
       ((L.backward c dOut).2).entry i j
         = ∑ k ∈ Finset.range (L.activation.backward c dOut).cols,
             (L.activation.backward c dOut).entry i k * L.W.entry j k) ∧
    ((L.backward c dOut).1).W_param.grad = ((L.backward c dOut).1).grad_W.data ∧
    ((L.backward c dOut).1).b_param.grad = ((L.backward c dOut).1).grad_b ∧
    (∀ gW0 gb0,
       (({ L with grad_W := gW0, grad_b := gb0 } : DenseLayer).backward c dOut).1.grad_W
           = ((L.backward c dOut).1).grad_W ∧
       (({ L with grad_W := gW0, grad_b := gb0 } : DenseLayer).backward c dOut).1.grad_b
           = ((L.backward c dOut).1).grad_b) := by
  refine ⟨?_, ?_, ?_, rfl, rfl, fun gW0 gb0 => ⟨rfl, rfl⟩⟩
  · intro i j hj
    show (matmul (transpose L.input_cache) (L.activation.backward c dOut)).entry i j = _
    rw [matmul_entry _ _ i hj]
    refine Finset.sum_congr rfl fun k hk => ?_
    rw [transpose_entry L.input_cache i (Finset.mem_range.mp hk)]
  · intro j hj
    show DenseLayer.biasGradLoop (L.activation.backward c dOut) j = _
    exact biasGradLoop_eq_colsum _ hj
  · intro i j hj
    show (matmul (L.activation.backward c dOut) (transpose L.W)).entry i j = _
    rw [matmul_entry _ _ i (by simpa using hj)]
    refine Finset.sum_congr rfl fun k hk => ?_
    rw [transpose_entry L.W k hj]

/-- A concrete dense layer (2 inputs, 1 output, linear activation) whose
caches are set as if a forward pass on one example had run, and with nonzero
initial gradient buffers (so the overwrite is visible); used by the C3
witness. -/
def denseW : DenseLayer :=
  { W := ⟨2, 1, fun _ => 3⟩
    b := fun _ => 0
    grad_W := ⟨2, 1, fun _ => 7⟩
    grad_b := fun _ => 7
    W_param := ⟨0, 2, fun _ => 3, fun _ => 7⟩
    b_param := ⟨1, 1, fun _ => 0, fun _ => 7⟩
    input_cache := ⟨1, 2, fun idx => if idx = 0 then 5 else 6⟩
    activation := { type := .LINEAR } }

/-- Witness for C3 on `denseW` with gradient `dOut = [[2]]`: the weight
gradient entry (0,0) is the batch sum of `input(k,0) * dAct(k,0)`, the bias
gradient is the column sum, and the returned input gradient matches
`dAct · transpose(W)`. -/
theorem dense_backward_formulas_witness :
    (⟨1, 1, fun _ => 2⟩ : Tensor).cols = denseW.W.cols ∧
    ((denseW.backward cmathW ⟨1, 1, fun _ => 2⟩).1).grad_W.entry 0 0
      = ∑ k ∈ Finset.range denseW.input_cache.rows,
          denseW.input_cache.entry k 0
            * (denseW.activation.backward cmathW ⟨1, 1, fun _ => 2⟩).entry k 0 ∧
    ((denseW.backward cmathW ⟨1, 1, fun _ => 2⟩).1).grad_b 0
      = ∑ i ∈ Finset.range (denseW.activation.backward cmathW ⟨1, 1, fun _ => 2⟩).rows,
          (denseW.activation.backward cmathW ⟨1, 1, fun _ => 2⟩).entry i 0 := by
  have h := dense_backward_formulas cmathW denseW ⟨1, 1, fun _ => 2⟩ rfl rfl
  exact ⟨rfl, h.1 0 0 (by decide), h.2.1 0 (by decide)⟩

/-- A scan state of `argmax` is good when it records a valid position and
that position's entry. -/
def goodState (A : Tensor) (s : ℕ × ℚ) : Prop :=
  ∃ r < A.rows, ∃ cc < A.cols, s.1 = r * A.cols + cc ∧ s.2 = A.entry r cc

/-- The `argmax` scan preserves good states over any list of valid
positions. -/
theorem argmax_scan_good (A : Tensor) (l : List (ℕ × ℕ))
    (hl : ∀ p ∈ l, p.1 < A.rows ∧ p.2 < A.cols) (s : ℕ × ℚ) (hs : goodState A s) :
    goodState A (l.foldl (argmaxStep A) s) := by
  induction l generalizing s with
  | nil => exact hs
  | cons p l ih =>
      refine ih (fun q hq => hl q (List.mem_cons_of_mem p hq)) _ ?_
      unfold argmaxStep
      by_cases h : s.2 < A.entry p.1 p.2
      · rw [if_pos h]
        exact ⟨p.1, (hl p (List.mem_cons_self p l)).1, p.2,
          (hl p (List.mem_cons_self p l)).2, rfl, rfl⟩
      · rw [if_neg h]
        exact hs

/-- The `argmax` scan value never decreases and dominates every scanned
entry. -/
theorem argmax_scan_ge (A : Tensor) (l : List (ℕ × ℕ)) (s : ℕ × ℚ) :
    s.2 ≤ (l.foldl (argmaxStep A) s).2 ∧
    ∀ p ∈ l, A.entry p.1 p.2 ≤ (l.foldl (argmaxStep A) s).2 := by
  induction l generalizing s with
  | nil => exact ⟨le_refl _, fun p hp => absurd hp (List.not_mem_nil p)⟩
  | cons p l ih =>
      have hstep : s.2 ≤ (argmaxStep A s p).2 ∧ A.entry p.1 p.2 ≤ (argmaxStep A s p).2 := by
        unfold argmaxStep
        by_cases h : s.2 < A.entry p.1 p.2
        · rw [if_pos h]
          exact ⟨le_of_lt h, le_refl _⟩
        · rw [if_neg h]
          exact ⟨le_refl _, le_of_not_lt h⟩
      have hrest := ih (argmaxStep A s p)
      refine ⟨le_trans hstep.1 hrest.1, fun q hq => ?_⟩
      rcases List.mem_cons.mp hq with h | h
      · subst h
        exact le_trans hstep.2 hrest.1
      · exact hrest.2 q h

/-- Membership in the row-major scan order is exactly in-range indexing. -/
theorem mem_scanPairs (A : Tensor) (p : ℕ × ℕ) :
    p ∈ scanPairs A ↔ p.1 < A.rows ∧ p.2 < A.cols := by
  cases p with
  | mk i j => simp [scanPairs, List.mem_flatMap]

/-- Claim C4 (amended): for a tensor with more than one row (and at least
one column), `argmax` returns the column index of a *global* maximum over
all entries — the scan covers every row, not just row 0. -/
theorem argmax_is_global_max_column (A : Tensor) (h1 : 1 < A.rows) (hc : 0 < A.cols) :
    ∃ r < A.rows, argmax A < A.cols ∧
      (∀ i < A.rows, ∀ j < A.cols, A.entry i j ≤ A.entry r (argmax A)) := by
  have hinit : goodState A (0, A.entry 0 0) :=
    ⟨0, by omega, 0, hc, by simp, rfl⟩
  have hgood := argmax_scan_good A (scanPairs A)
    (fun p hp => (mem_scanPairs A p).mp hp) _ hinit
  obtain ⟨r, hr, cc, hcc, hfst, hsnd⟩ := hgood
  have hge := argmax_scan_ge A (scanPairs A) (0, A.entry 0 0)
  have hidx : argmax A = cc := by
    unfold argmax
    rw [if_neg (by omega)]
    show ((scanPairs A).foldl (argmaxStep A) (0, A.entry 0 0)).1 % A.cols = cc
    rw [hfst, flat_mod r hcc]
  refine ⟨r, hr, by rw [hidx]; exact hcc, fun i hi j hj => ?_⟩
  rw [hidx, ← hsnd]
  exact hge.2 (i, j) ((mem_scanPairs A (i, j)).mpr ⟨hi, hj⟩)

/-- A 2x2 tensor `[[5, 0], [0, 7]]` whose global maximum sits outside
row 0. -/
def cexA : Tensor := ⟨2, 2, fun idx => if idx = 0 then 5 else if idx = 3 then 7 else 0⟩

/-- A 2x2 tensor `[[5, 0], [0, 0]]` with the same row 0 as `cexA`. -/
def cexB : Tensor := ⟨2, 2, fun idx => if idx = 0 then 5 else 0⟩

/-- Counterexample to C4 as stated: `cexA` and `cexB` agree on every entry
of row 0, yet `argmax` returns different columns (1 vs 0), so entries in
rows other than row 0 do affect the result; moreover row 0's own maximum
column of `cexA` is 0, not the returned 1. -/
theorem argmax_row0_only_counterexample :
    (∀ j < 2, cexA.entry 0 j = cexB.entry 0 j) ∧
    1 < cexA.rows ∧ 1 < cexB.rows ∧
    argmax cexA = 1 ∧ argmax cexB = 0 ∧
    (∀ j < 2, cexA.entry 0 j ≤ cexA.entry 0 0) := by
  refine ⟨?_, ?_, ?_, ?_, ?_, ?_⟩ <;> decide

/-- Witness for the amended C4 on `cexA`: some row below `2` holds a global
maximum at the returned column. -/
theorem argmax_is_global_max_column_witness :
    ∃ r < cexA.rows, argmax cexA < cexA.cols ∧
      (∀ i < cexA.rows, ∀ j < cexA.cols, cexA.entry i j ≤ cexA.entry r (argmax cexA)) :=
  argmax_is_global_max_column cexA (by decide) (by decide)

/-- The weight-side state of a layer: the canonical `W`/`b` buffers and the
optimizer-facing parameter data buffers. -/
def layerWeights (L : DenseLayer) : Tensor × (ℕ → ℚ) × (ℕ → ℚ) × (ℕ → ℚ) :=
  (L.W, L.b, L.W_param.data, L.b_param.data)

/-- A forward chain only touches caches: every layer's weight-side state is
unchanged. -/
theorem forwardLayers_weights (c : CMath) (ls : List DenseLayer) (x : Tensor) :
    ((Model.forwardLayers c ls x).1).map layerWeights = ls.map layerWeights := by
  induction ls generalizing x with
  | nil => rfl
  | cons L ls ih =>
      show layerWeights (L.forward c x).1 :: _ = _
      rw [ih ((L.forward c x).2)]
      rfl

/-- A backward chain only touches gradient buffers and parameter gradient
views: every layer's weight-side state is unchanged. -/
theorem backwardLayers_weights (c : CMath) (ls : List DenseLayer) (g : Tensor) :
    ((Model.backwardLayers c ls g).1).map layerWeights = ls.map layerWeights := by
  induction ls generalizing g with
  | nil => rfl
  | cons L ls ih =>
      show layerWeights (L.backward c (Model.backwardLayers c ls g).2).1 :: _ = _
      rw [ih g]
      rfl

/-- The per-example training loop preserves every layer's weight-side
state. -/
theorem fitExamples_weights (c : CMath) (l : Loss) (data : List (Tensor × ℤ)) :
    ∀ (st res : List DenseLayer × ℚ × ℕ),
      Model.fitExamples c l data st = some res →
      res.1.map layerWeights = st.1.map layerWeights := by
  induction data with
  | nil =>
      intro st res h
      cases h
      rfl
  | cons p rest ih =>
      intro st res h
      obtain ⟨x, y⟩ := p
      obtain ⟨layers, el, corr⟩ := st
      unfold Model.fitExamples at h
      simp only [] at h
      cases hf : l.forward c (Model.forwardLayers c layers x).2 (fun _ => y) none with
      | none => rw [hf] at h; cases h
      | some lossv =>
          rw [hf] at h
          cases hb : l.backward (Model.forwardLayers c layers x).2 (fun _ => y) none with
          | none => rw [hb] at h; cases h
          | some grad =>
              rw [hb] at h
              have := ih _ _ h
              rw [this]
              show (Model.backwardLayers c (Model.forwardLayers c layers x).1 grad).1.map
                  layerWeights = _
              rw [backwardLayers_weights, forwardLayers_weights]

/-- The epoch loop preserves every layer's weight-side state. -/
theorem fitEpochs_weights (c : CMath) (l : Loss) (data : List (Tensor × ℤ)) :
    ∀ (n : ℕ) (layers res : List DenseLayer),
      Model.fitEpochs c l data n layers = some res →
      res.map layerWeights = layers.map layerWeights := by
  intro n
  induction n with
  | zero =>
      intro layers res h
      cases h
      rfl
  | succ n ih =>
      intro layers res h
      unfold Model.fitEpochs at h
      cases he : Model.fitExamples c l data (layers, 0, 0) with
      | none => rw [he] at h; cases h
      | some st =>
          rw [he] at h
          rw [ih _ _ h, fitExamples_weights c l data _ _ he]

/-- Claim C8: `Model::fit` never changes any layer's weight matrix, bias
vector, or optimizer-facing parameter data: the internal `optimizer_step`
hook is the identity, and a successful `fit` returns layers with exactly the
initial weight-side state (only gradients and caches may differ). -/
theorem fit_does_not_update_weights (c : CMath) (m : Model) (X : List Tensor)
    (y : List ℤ) (epochs bs : ℕ) (m' : Model)
    (h : m.fit c X y epochs bs = some m') :
    m'.layers.map layerWeights = m.layers.map layerWeights ∧
    (∀ ls : List DenseLayer, Model.optimizer_step ls = ls) := by
  refine ⟨?_, fun ls => rfl⟩
  unfold Model.fit at h
  cases hl : m.loss_fn with
  | none => rw [hl] at h; cases h
  | some l =>
      rw [hl] at h
      cases ho : m.optimizer with
      | none => rw [ho] at h; cases h
      | some o =>
          rw [ho] at h
          simp only [] at h
          cases he : Model.fitEpochs c l (X.zip y) epochs m.layers with
          | none => rw [he] at h; cases h
          | some layers =>
              rw [he] at h
              cases h
              exact fitEpochs_weights c l (X.zip y) epochs m.layers layers he

/-- A concrete 1-to-1 linear layer for the training-loop witnesses. -/
def layerFitW : DenseLayer := DenseLayer.mk' 0 1 1 .LINEAR

/-- A concrete compiled model (sparse categorical cross-entropy loss, SGD)
for the training-loop witnesses. -/
def modelFitW : Model :=
  { layers := [layerFitW]
    loss_fn := some { type := .SPARSE_CATEGORICAL_CROSS_ENTROPY }
    optimizer := some (.sgd { lr := 0.1 }) }

/-- A one-example training set for the training-loop witnesses. -/
def XFitW : List Tensor := [⟨1, 1, fun _ => 1⟩]

/-- The matching labels for `XFitW`. -/
def yFitW : List ℤ := [0]

/-- Witness for C8: one epoch of `fit` on the concrete compiled model
succeeds and returns layers with the initial weight-side state. -/
theorem fit_does_not_update_weights_witness :
    ∃ m', Model.fit cmathW modelFitW XFitW yFitW 1 1 = some m' ∧
      m'.layers.map layerWeights = modelFitW.layers.map layerWeights := by
  have hs : (Model.fit cmathW modelFitW XFitW yFitW 1 1).isSome := rfl
  exact ⟨(Model.fit cmathW modelFitW XFitW yFitW 1 1).get hs, (Option.some_get hs).symm,
    (fit_does_not_update_weights cmathW modelFitW XFitW yFitW 1 1 _
      (Option.some_get hs).symm).1⟩

/-- With the sparse kind, the loss forward never touches the dense-target
pointer and always produces a value. -/
theorem sparse_forward_isSome (l : Loss)
    (h : l.type = .SPARSE_CATEGORICAL_CROSS_ENTROPY) (c : CMath) (y_pred : Tensor)
    (ys : ℕ → ℤ) (dense : Option Tensor) : (l.forward c y_pred ys dense).isSome := by
  unfold Loss.forward
  rw [h]
  rfl

/-- With the sparse kind, the loss backward never touches the dense-target
pointer and always produces a gradient. -/
theorem sparse_backward_isSome (l : Loss)
    (h : l.type = .SPARSE_CATEGORICAL_CROSS_ENTROPY) (y_pred : Tensor)
    (ys : ℕ → ℤ) (dense : Option Tensor) : (l.backward y_pred ys dense).isSome := by
  unfold Loss.backward
  rw [h]
  rfl

/-- With any of the three dense-target kinds, the loss forward and backward
dereference the null default and are undefined (`none`). -/
theorem dense_loss_none (l : Loss)
    (h : l.type ≠ .SPARSE_CATEGORICAL_CROSS_ENTROPY) (c : CMath) (y_pred : Tensor)
    (ys : ℕ → ℤ) :
    l.forward c y_pred ys none = none ∧ l.backward y_pred ys none = none := by
  obtain ⟨t, nc, e⟩ := l
  cases t <;> simp_all [Loss.forward, Loss.backward]

/-- With a sparse loss, every step of the per-example training loop
succeeds. -/
theorem fitExamples_isSome (c : CMath) (l : Loss)
    (h : l.type = .SPARSE_CATEGORICAL_CROSS_ENTROPY) (data : List (Tensor × ℤ)) :
    ∀ st : List DenseLayer × ℚ × ℕ, (Model.fitExamples c l data st).isSome := by
  induction data with
  | nil => intro st; rfl
  | cons p rest ih =>
      intro st
      obtain ⟨x, y⟩ := p
      obtain ⟨layers, el, corr⟩ := st
      unfold Model.fitExamples
      simp only []
      cases hf : l.forward c (Model.forwardLayers c layers x).2 (fun _ => y) none with
      | none =>
          have := sparse_forward_isSome l h c (Model.forwardLayers c layers x).2 (fun _ => y) none
          rw [hf] at this
          cases this
      | some lossv =>
          cases hb : l.backward (Model.forwardLayers c layers x).2 (fun _ => y) none with
          | none =>
              have := sparse_backward_isSome l h (Model.forwardLayers c layers x).2 (fun _ => y) none
              rw [hb] at this
              cases this
          | some grad => exact ih _

/-- With a sparse loss, every epoch of the training loop succeeds. -/
theorem fitEpochs_isSome (c : CMath) (l : Loss)
    (h : l.type = .SPARSE_CATEGORICAL_CROSS_ENTROPY) (data : List (Tensor × ℤ)) :
    ∀ (n : ℕ) (layers : List DenseLayer), (Model.fitEpochs c l data n layers).isSome := by
  intro n
  induction n with
  | zero => intro layers; rfl
  | succ n ih =>
      intro layers
      unfold Model.fitEpochs
      cases he : Model.fitExamples c l data (layers, 0, 0) with
      | none =>
          have := fitExamples_isSome c l h data (layers, 0, 0)
          rw [he] at this
          cases this
      | some st => exact ih _

/-- With a sparse loss, every step of the evaluation loop succeeds. -/
theorem evalExamples_isSome (c : CMath) (l : Loss)
    (h : l.type = .SPARSE_CATEGORICAL_CROSS_ENTROPY) (data : List (Tensor × ℤ)) :
    ∀ st : List DenseLayer × ℚ × ℕ, (Model.evalExamples c l data st).isSome := by
  induction data with
  | nil => intro st; rfl
  | cons p rest ih =>
      intro st
      obtain ⟨x, y⟩ := p
      obtain ⟨layers, tl, corr⟩ := st
      unfold Model.evalExamples
      simp only []
      cases hf : l.forward c (Model.forwardLayers c layers x).2 (fun _ => y) none with
      | none =>
          have := sparse_forward_isSome l h c (Model.forwardLayers c layers x).2 (fun _ => y) none
          rw [hf] at this
          cases this
      | some lossv => exact ih _

/-- With a non-sparse loss, the first example aborts the per-example
training loop. -/
theorem fitExamples_none (c : CMath) (l : Loss)
    (h : l.type ≠ .SPARSE_CATEGORICAL_CROSS_ENTROPY) (x : Tensor) (y : ℤ)
    (rest : List (Tensor × ℤ)) (st : List DenseLayer × ℚ × ℕ) :
    Model.fitExamples c l ((x, y) :: rest) st = none := by
  obtain ⟨layers, el, corr⟩ := st
  unfold Model.fitExamples
  simp only []
  rw [(dense_loss_none l h c (Model.forwardLayers c layers x).2 (fun _ => y)).1]

/-- With a non-sparse loss, the first example aborts the evaluation loop. -/
theorem evalExamples_none (c : CMath) (l : Loss)
    (h : l.type ≠ .SPARSE_CATEGORICAL_CROSS_ENTROPY) (x : Tensor) (y : ℤ)
    (rest : List (Tensor × ℤ)) (st : List DenseLayer × ℚ × ℕ) :
    Model.evalExamples c l ((x, y) :: rest) st = none := by
  obtain ⟨layers, tl, corr⟩ := st
  unfold Model.evalExamples
  simp only []
  rw [(dense_loss_none l h c (Model.forwardLayers c layers x).2 (fun _ => y)).1]

/-- Claim C10: `fit`/`evaluate` pass only sparse integer labels and leave
the dense-target pointer at its null default, while the first three loss
kinds unconditionally dereference it; hence with the sparse kind the
null-dereferencing branches are unreachable and `fit`/`evaluate` are
well-defined, and with any other kind they are undefined on any nonempty
training set. -/
theorem model_well_defined_only_for_sparse_loss (c : CMath) (l : Loss)
    (y_pred : Tensor) (ys : ℕ → ℤ) (m : Model) (X : List Tensor) (y : List ℤ)
    (epochs bs : ℕ) :
    (l.type = .SPARSE_CATEGORICAL_CROSS_ENTROPY →
       (l.forward c y_pred ys none).isSome ∧ (l.backward y_pred ys none).isSome) ∧
    (l.type ≠ .SPARSE_CATEGORICAL_CROSS_ENTROPY →
       l.forward c y_pred ys none = none ∧ l.backward y_pred ys none = none) ∧
    (m.loss_fn = some l → m.optimizer.isSome →
       l.type = .SPARSE_CATEGORICAL_CROSS_ENTROPY →
       (m.fit c X y epochs bs).isSome ∧ (m.evaluate c X y).isSome) ∧
    (m.loss_fn = some l → l.type ≠ .SPARSE_CATEGORICAL_CROSS_ENTROPY →
       X ≠ [] → y ≠ [] → 1 ≤ epochs →
       m.fit c X y epochs bs = none ∧ m.evaluate c X y = none) := by
  refine ⟨fun h => ⟨sparse_forward_isSome l h c y_pred ys none,
      sparse_backward_isSome l h y_pred ys none⟩,
    fun h => dense_loss_none l h c y_pred ys, ?_, ?_⟩
  · intro hl ho h
    constructor
    · unfold Model.fit
      rw [hl]
      cases hopt : m.optimizer with
      | none => rw [hopt] at ho; cases ho
      | some o =>
          simp only []
          cases he : Model.fitEpochs c l (X.zip y) epochs m.layers with
          | none =>
              have := fitEpochs_isSome c l h (X.zip y) epochs m.layers
              rw [he] at this
              cases this
          | some layers => rfl
    · unfold Model.evaluate
      rw [hl]
      simp only []
      cases he : Model.evalExamples c l (X.zip y) (m.layers, 0, 0) with
      | none =>
          have := evalExamples_isSome c l h (X.zip y) (m.layers, 0, 0)
          rw [he] at this
          cases this
      | some st => rfl
  · intro hl h hX hy hep
    cases X with
    | nil => exact absurd rfl hX
    | cons x0 X' =>
    cases y with
    | nil => exact absurd rfl hy
    | cons y0 y' =>
    cases epochs with
    | zero => omega
    | succ n =>
    have hfe : Model.fitEpochs c l ((x0 :: X').zip (y0 :: y')) (n + 1) m.layers = none := by
      unfold Model.fitEpochs
      rw [show (x0 :: X').zip (y0 :: y') = (x0, y0) :: X'.zip y' from rfl,
        fitExamples_none c l h x0 y0 (X'.zip y') (m.layers, 0, 0)]
    have hee : Model.evalExamples c l ((x0 :: X').zip (y0 :: y')) (m.layers, 0, 0) = none := by
      rw [show (x0 :: X').zip (y0 :: y') = (x0, y0) :: X'.zip y' from rfl]
      exact evalExamples_none c l h x0 y0 (X'.zip y') (m.layers, 0, 0)
    constructor
    · unfold Model.fit
      rw [hl]
      cases hopt : m.optimizer with
      | none => rfl
      | some o =>
          simp only []
          rw [hfe]
    · unfold Model.evaluate
      rw [hl]
      simp only []
      rw [hee]

/-- A concrete MSE-configured loss for the C10 witness. -/
def mseLossW : Loss := { type := .MEAN_SQUARED_ERROR }

/-- The concrete model recompiled with the MSE loss, for the C10 witness. -/
def modelMseW : Model := { modelFitW with loss_fn := some mseLossW }

/-- Witness for C10: on the concrete data, the sparse loss and the compiled
sparse model succeed, while the MSE loss with the null dense target and the
MSE-compiled model's `fit` are undefined. -/
theorem model_well_defined_only_for_sparse_loss_witness :
    (Loss.forward { type := .SPARSE_CATEGORICAL_CROSS_ENTROPY } cmathW predW labelsW none).isSome ∧
    (Model.fit cmathW modelFitW XFitW yFitW 1 1).isSome ∧
    Loss.forward mseLossW cmathW predW labelsW none = none ∧
    Model.fit cmathW modelMseW XFitW yFitW 1 1 = none := by
  have h1 := model_well_defined_only_for_sparse_loss cmathW
    { type := .SPARSE_CATEGORICAL_CROSS_ENTROPY } predW labelsW modelFitW XFitW yFitW 1 1
  have h2 := model_well_defined_only_for_sparse_loss cmathW
    mseLossW predW labelsW modelMseW XFitW yFitW 1 1
  have hne : mseLossW.type ≠ LossType.SPARSE_CATEGORICAL_CROSS_ENTROPY := by decide
  have hX : XFitW ≠ [] := by
    unfold XFitW
    exact List.cons_ne_nil _ _
  have hy : yFitW ≠ [] := by
    unfold yFitW
    exact List.cons_ne_nil _ _
  exact ⟨(h1.1 rfl).1, (h1.2.2.1 rfl rfl rfl).1, (h2.2.1 hne).1,
    (h2.2.2.2 rfl hne hX hy (le_refl 1)).1⟩
